import Mathlib

/-!
Verification development for the CAM-analyzer G-code engine
(`src/backend.py`, `GCodeAnalyzer`), checked against the natural-language
specification of the repository.

The engine is shallowly embedded: Python floats are idealized as exact
numbers (the text/state layer works over `ℚ`, the kinematics layer over
`ℝ`), strings are `List Char`, the tokenizer regex is a hand-rolled
scanner with the same acceptance language, and the per-line loop body of
`parse_and_calculate` becomes a pure step function on an explicit state
record.  The progress/cancellation callback is a function `ℕ → Bool`
(line/record index ↦ "should cancel"), and a cancelled stage returns
`none`.
-/

namespace CAM

/-! ## Text utilities (comment stripping, `str.strip`, `str.upper`, substring) -/

/-- Python whitespace characters stripped by `str.strip()`. -/
def pyIsSpace (c : Char) : Bool :=
  c = ' ' || c = '\t' || c = '\n' || c = '\r' || c = (Char.ofNat 11) || c = (Char.ofNat 12)

/-- `str.strip()`: drop leading and trailing whitespace. -/
def pyStrip (l : List Char) : List Char :=
  ((l.dropWhile pyIsSpace).reverse.dropWhile pyIsSpace).reverse

/-- `str.upper()` on the characters we care about (ASCII). -/
def upperChars (l : List Char) : List Char := l.map Char.toUpper

/-- `needle in hay` for strings: some tail of `hay` starts with `needle`. -/
def isSubstring (needle hay : List Char) : Bool :=
  hay.tails.any (fun t => needle.isPrefixOf t)

theorem dropWhile_len (p : Char → Bool) (l : List Char) :
    (l.dropWhile p).length ≤ l.length :=
  (List.dropWhile_sublist _).length_le

/-- `re.sub(r'\([^)]*\)', '', s)` from `parse_and_calculate`: delete every
parenthesised comment `( ... )`; an unclosed `(` is kept literally.  The
scan consumes at least one character per step, so structural recursion on
a fuel initialised to the input length is exact (the fuel can never run
out before the input does); this keeps the function kernel-reducible. -/
def stripCommentsAux : ℕ → List Char → List Char
  | 0, _ => []
  | _, [] => []
  | fuel + 1, c :: rest =>
    if c = '(' then
      match rest.dropWhile (fun d => !(d = ')')) with
      | [] => c :: stripCommentsAux fuel rest
      | _ :: rest2 => stripCommentsAux fuel rest2
    else
      c :: stripCommentsAux fuel rest

def stripComments (cs : List Char) : List Char := stripCommentsAux cs.length cs

/-- `split('\n')` on the content. -/
def splitLines (cs : List Char) : List (List Char) := cs.splitOn '\n'

/-! ## Tokenizer

`self.pattern = re.compile(r'([XYZABCIJKFR])([-+]?(?:\d+\.?\d*|\.\d+))', re.IGNORECASE)`
and `pattern.findall(line)`: a left-to-right, non-overlapping scan that at
each axis letter tries to match a greedy signed decimal number. -/

/-- The letters captured by the first regex group (case-insensitive). -/
def tokenLetters : List Char := ['X', 'Y', 'Z', 'A', 'B', 'C', 'I', 'J', 'K', 'F', 'R']

def isTokenLetter (c : Char) : Bool := tokenLetters.contains c.toUpper

/-- Split an optional leading `-`/`+` sign off the number candidate. -/
def numSign (cs : List Char) : List Char × List Char :=
  match cs with
  | c :: t => if c = '-' || c = '+' then ([c], t) else ([], c :: t)
  | [] => ([], [])

theorem numSign_snd_length (cs : List Char) : (numSign cs).2.length ≤ cs.length := by
  cases cs with
  | nil => simp [numSign]
  | cons c t =>
    simp only [numSign]
    split <;> simp

/-- Match the second regex group `[-+]?(?:\d+\.?\d*|\.\d+)` greedily at the
front of `cs`; on success return (matched characters, rest of the input). -/
def matchNum (cs : List Char) : Option (List Char × List Char) :=
  let sp := numSign cs
  let ds := sp.2.takeWhile Char.isDigit
  let r2 := sp.2.dropWhile Char.isDigit
  match r2 with
  | '.' :: r3 =>
    let ds2 := r3.takeWhile Char.isDigit
    if ds.isEmpty && ds2.isEmpty then none
    else some (sp.1 ++ ds ++ '.' :: ds2, r3.dropWhile Char.isDigit)
  | _ => if ds.isEmpty then none else some (sp.1 ++ ds, r2)

theorem matchNum_rest_length {cs num rest : List Char}
    (h : matchNum cs = some (num, rest)) : rest.length ≤ cs.length := by
  unfold matchNum at h
  simp only [] at h
  split at h
  case _ r3 heq =>
    split at h
    · exact absurd h (by simp)
    · simp only [Option.some.injEq, Prod.mk.injEq] at h
      obtain ⟨-, h2⟩ := h
      subst h2
      have h1 : (r3.dropWhile Char.isDigit).length ≤ r3.length := dropWhile_len _ _
      have h2 : ('.' :: r3).length ≤ (numSign cs).2.length := by
        rw [← heq]; exact dropWhile_len _ _
      have h3 := numSign_snd_length cs
      simp at h2
      omega
  case _ =>
    split at h
    · exact absurd h (by simp)
    · simp only [Option.some.injEq, Prod.mk.injEq] at h
      obtain ⟨-, h2⟩ := h
      subst h2
      have h1 : ((numSign cs).2.dropWhile Char.isDigit).length ≤ (numSign cs).2.length :=
        dropWhile_len _ _
      have h3 := numSign_snd_length cs
      omega

/-- `pattern.findall(line)`: the list of `(uppercased letter, number string)`
pairs, scanned left to right without overlap.  The scan consumes at least
one character per step (`matchNum_rest_length`), so structural recursion
on a fuel initialised to the input length is exact — the fuel can never
run out before the input does — and keeps the function kernel-reducible. -/
def tokenizeAux : ℕ → List Char → List (Char × List Char)
  | 0, _ => []
  | _, [] => []
  | fuel + 1, c :: rest =>
    if isTokenLetter c then
      match matchNum rest with
      | some (num, rest2) => (c.toUpper, num) :: tokenizeAux fuel rest2
      | none => tokenizeAux fuel rest
    else
      tokenizeAux fuel rest

def tokenize (cs : List Char) : List (Char × List Char) := tokenizeAux cs.length cs

/-! ## Python `float()` on decimal literals

The engine converts each matched number string with `float(val_str)` inside
`try/except ValueError`.  We model `float` restricted to plain signed
decimal literals (the only strings the tokenizer can produce); values are
exact rationals.  On strings outside this sublanguage the model returns
`none`, mirroring `ValueError`. -/

def digitVal (c : Char) : ℕ := c.toNat - 48

def natOfDigits (ds : List Char) : ℕ := ds.foldl (fun n c => 10 * n + digitVal c) 0

/-- Parse `[-+]? digits [. digits]` where at least one digit is present and
the whole string is consumed; the value is the exact rational
`± (d1.d2) = ± (d1·10^k + d2) / 10^k` with `k` the number of fractional
digits (one `Rat.divInt` on integers, which keeps the function
kernel-reducible). -/
def pyFloat (cs : List Char) : Option ℚ :=
  let sp := numSign cs
  let sign : Int := if sp.1 = ['-'] then -1 else 1
  let d1 := sp.2.takeWhile Char.isDigit
  let r2 := sp.2.dropWhile Char.isDigit
  match r2 with
  | [] =>
    if d1.isEmpty then none
    else some (Rat.divInt (sign * (natOfDigits d1 : Int)) 1)
  | '.' :: r3 =>
    let d2 := r3.takeWhile Char.isDigit
    let r4 := r3.dropWhile Char.isDigit
    if r4.isEmpty then
      if d1.isEmpty && d2.isEmpty then none
      else
        some (Rat.divInt
          (sign * ((natOfDigits d1 : Int) * 10 ^ d2.length + (natOfDigits d2 : Int)))
          (10 ^ d2.length))
    else none
  | _ => none

/-! ## Data model -/

/-- The nine tracked axes of `current_pos`. -/
inductive Axis
  | X | Y | Z | A | B | C | I | J | K
  deriving DecidableEq, Repr

/-- The nine axes in the alphabetical order produced by Python's
`sorted()` on their letters: A,B,C,I,J,K,X,Y,Z. -/
def axisAlpha : List Axis := [.A, .B, .C, .I, .J, .K, .X, .Y, .Z]

/-- The fixed display priority order X,Y,Z,A,B,C,I,J,K used by the
frontend (`all_axes_priority`). -/
def axisPriority : List Axis := [.X, .Y, .Z, .A, .B, .C, .I, .J, .K]

/-- Map an (uppercased) token letter to a tracked axis; `F`/`R` and other
characters are not position axes. -/
def axisOfChar (c : Char) : Option Axis :=
  if c = 'X' then some .X else if c = 'Y' then some .Y else if c = 'Z' then some .Z
  else if c = 'A' then some .A else if c = 'B' then some .B else if c = 'C' then some .C
  else if c = 'I' then some .I else if c = 'J' then some .J else if c = 'K' then some .K
  else none

/-- A 9-axis position (`current_pos` / one row of the position history). -/
structure Pos where
  x : ℚ
  y : ℚ
  z : ℚ
  a : ℚ
  b : ℚ
  c : ℚ
  i : ℚ
  j : ℚ
  k : ℚ
  deriving DecidableEq, Repr

/-- Row-0 machine-home default: all axes 0 except K = 1. -/
def homePos : Pos := ⟨0, 0, 0, 0, 0, 0, 0, 0, 1⟩

def Pos.get (p : Pos) : Axis → ℚ
  | .X => p.x | .Y => p.y | .Z => p.z
  | .A => p.a | .B => p.b | .C => p.c
  | .I => p.i | .J => p.j | .K => p.k

def Pos.set (p : Pos) : Axis → ℚ → Pos
  | .X, v => { p with x := v }
  | .Y, v => { p with y := v }
  | .Z, v => { p with z := v }
  | .A, v => { p with a := v }
  | .B, v => { p with b := v }
  | .C, v => { p with c := v }
  | .I, v => { p with i := v }
  | .J, v => { p with j := v }
  | .K, v => { p with k := v }

/-- Motion modes tracked by `motion_mode`. -/
inductive Mode
  | G00 | G01 | G02 | G03
  deriving DecidableEq, Repr

/-- Outcome tags of the G02/G03 arc branch. -/
inductive ArcTag
  | validArc        -- R declared and chord ≤ 2|R|: true arc length
  | radiusError     -- R declared but chord > 2|R|: "R錯誤", chord fallback
  | ijkArc          -- no R, line had I/J/K (arc center), not TCP: chord fallback
  | noRadiusApprox  -- no R at all: "無R值近似", chord fallback
  deriving DecidableEq, Repr

/-- The `info` note attached to a detailed-log segment. -/
inductive SegInfo
  | linearMove (tcp : Bool)
  | arcMove (m : Mode) (t : ArcTag)
  deriving DecidableEq, Repr

/-- One entry of `detailed_logs` (a cutting segment).  The numeric type is
a parameter so statistics over exact test data can be evaluated; the
engine instantiates it with `ℝ`. -/
structure Seg (α : Type) where
  line : ℕ
  start : Pos
  seg_end : Pos
  dist : α
  feed : α
  dist_xyz : α
  rot_deg : α
  is_tcp : Bool
  info : SegInfo
  deriving DecidableEq, Repr

/-- Human-readable classification of a `log_lines` entry. -/
inductive LogTag
  | setFeed | auxM | toolSpeed | prepOnly | header | noCoordInfo
  | rapid | noFeedWarn | stagnant | arcNote (t : ArcTag) | emptyNote
  deriving DecidableEq, Repr

/-- One entry of `log_lines`: line number (1-based), stripped text, tag. -/
structure LogLine where
  line : ℕ
  text : List Char
  tag : LogTag
  deriving DecidableEq, Repr

/-! ## The token loop (backend.py lines 108–123) -/

def isIJKAxis (a : Axis) : Bool :=
  a = Axis.I || a = Axis.J || a = Axis.K

/-- Accumulator of the `for axis, val_str in coords` loop: `next_pos`,
`current_feed`, line-scoped `radius_r`, `has_coords`, `has_ijk_in_line`,
and the updated `active_axes`. -/
structure ScanOut where
  next : Pos
  feed : ℚ
  radius : Option ℚ
  hasCoords : Bool
  hasIJK : Bool
  axes : Finset Axis
  deriving DecidableEq

/-- One iteration of the token loop.  A string `float()` cannot parse is
skipped silently (`except ValueError: pass`). -/
def scanToken (o : ScanOut) (t : Char × List Char) : ScanOut :=
  match pyFloat t.2 with
  | none => o
  | some v =>
    if t.1 = 'F' then { o with feed := v }
    else if t.1 = 'R' then { o with radius := some v }
    else
      match axisOfChar t.1 with
      | some a =>
        { o with
          next := o.next.set a v
          axes := insert a o.axes
          hasCoords := true
          hasIJK := o.hasIJK || isIJKAxis a }
      | none => o

def scanTokens (p : Pos) (f : ℚ) (ax : Finset Axis) (ts : List (Char × List Char)) : ScanOut :=
  ts.foldl scanToken
    { next := p, feed := f, radius := none, hasCoords := false, hasIJK := false, axes := ax }

/-! ## Kinematics (backend.py lines 148–194 and 245–276)

Python float arithmetic is idealized over `ℝ`. -/

noncomputable def dist3 (p q : Pos) : ℝ :=
  Real.sqrt (((q.x - p.x : ℚ) : ℝ) ^ 2 + ((q.y - p.y : ℚ) : ℝ) ^ 2 + ((q.z - p.z : ℚ) : ℝ) ^ 2)

/-- 6-axis Euclidean distance over X,Y,Z,A,B,C (mode B, lines 184–188). -/
noncomputable def euclid6 (p q : Pos) : ℝ :=
  Real.sqrt (((q.x - p.x : ℚ) : ℝ) ^ 2 + ((q.y - p.y : ℚ) : ℝ) ^ 2 + ((q.z - p.z : ℚ) : ℝ) ^ 2
    + ((q.a - p.a : ℚ) : ℝ) ^ 2 + ((q.b - p.b : ℚ) : ℝ) ^ 2 + ((q.c - p.c : ℚ) : ℝ) ^ 2)

def ijkVec (p : Pos) : ℝ × ℝ × ℝ := ((p.i : ℝ), (p.j : ℝ), (p.k : ℝ))

noncomputable def norm3 (v : ℝ × ℝ × ℝ) : ℝ :=
  Real.sqrt (v.1 ^ 2 + v.2.1 ^ 2 + v.2.2 ^ 2)

/-- The inner `normalize` of the TCP branch: divide by the norm only when
it is strictly positive (`if norm > 0 else v`). -/
noncomputable def codeNormalize (v : ℝ × ℝ × ℝ) : ℝ × ℝ × ℝ :=
  if 0 < norm3 v then (v.1 / norm3 v, v.2.1 / norm3 v, v.2.2 / norm3 v) else v

noncomputable def dot3 (u v : ℝ × ℝ × ℝ) : ℝ :=
  u.1 * v.1 + u.2.1 * v.2.1 + u.2.2 * v.2.2

/-- `max(-1.0, min(1.0, dot_prod))`. -/
noncomputable def clampVal (x : ℝ) : ℝ := max (-1) (min 1 x)

/-- `math.degrees`. -/
noncomputable def degOf (x : ℝ) : ℝ := x * 180 / Real.pi

/-- Mode A, TCP vector compound distance (lines 156–182): returns
`(dist_xyz_only, rot_deg_val, actual_dist)`. -/
noncomputable def tcpCalc (p q : Pos) : ℝ × ℝ × ℝ :=
  let d := dist3 p q
  let v1n := codeNormalize (ijkVec p)
  let v2n := codeNormalize (ijkVec q)
  let dp := clampVal (dot3 v1n v2n)
  let rot := degOf (Real.arccos dp)
  (d, rot, Real.sqrt (d ^ 2 + rot ^ 2))

/-- The G02/G03 arc computation (lines 252–276) as a function of the
already-computed chord length `d` and the line-scoped radius: returns
`(arc_len, classification tag)`.  The arc length defaults to the chord
and is replaced by `|R|·θ` only when R is declared and the chord fits. -/
noncomputable def arcCalc (d : ℝ) (r : Option ℝ) (hasIJK tcp : Bool) : ℝ × ArcTag :=
  match r with
  | some rv =>
    if d ≤ 2 * |rv| then
      let θ0 := 2 * Real.arcsin (d / (2 * |rv|))
      let θ := if rv < 0 then 2 * Real.pi - θ0 else θ0
      (|rv| * θ, ArcTag.validArc)
    else (d, ArcTag.radiusError)
  | none => if hasIJK && !tcp then (d, ArcTag.ijkArc) else (d, ArcTag.noRadiusApprox)

/-! ## The engine state and per-line step (`parse_and_calculate`) -/

/-- The mutable running state of the `parse_and_calculate` loop. -/
structure EngineState where
  current_pos : Pos
  current_feed : ℚ
  motion_mode : Mode
  is_tcp_mode : Bool
  active_axes : Finset Axis
  total_g00_dist : ℝ
  detailed_logs : List (Seg ℝ)
  log_lines : List LogLine
  g01_starts : List (ℚ × ℚ × ℚ)
  g01_ends : List (ℚ × ℚ × ℚ)

/-- Initial state: home position, feed 0, mode G00, TCP off. -/
def initState : EngineState :=
  ⟨homePos, 0, Mode.G00, false, ∅, 0, [], [], [], []⟩

/-- `motion_mode` update (lines 92–96): substring tests on the uppercased
stripped line, priority G00 > G01 > G02 > G03; no token keeps the mode. -/
def modeTokenOf (up : List Char) : Option Mode :=
  if isSubstring (String.toList "G00") up then some Mode.G00
  else if isSubstring (String.toList "G01") up then some Mode.G01
  else if isSubstring (String.toList "G02") up then some Mode.G02
  else if isSubstring (String.toList "G03") up then some Mode.G03
  else none

def lineUp (l : List Char) : List Char := upperChars (pyStrip l)

def lineMode (s : EngineState) (l : List Char) : Mode :=
  (modeTokenOf (lineUp l)).getD s.motion_mode

def lineScan (s : EngineState) (l : List Char) : ScanOut :=
  scanTokens s.current_pos s.current_feed s.active_axes (tokenize (pyStrip l))

/-- Sticky TCP-mode flag after the routing logic of lines 125–130. -/
def lineTcp (s : EngineState) (l : List Char) : Bool :=
  s.is_tcp_mode || ((lineMode s l == Mode.G01) && (lineScan s l).hasIJK)

/-- Did the line carry any of the nine position-axis tokens (`has_coords or
has_ijk_in_line`)? Non-coordinate lines are only classified for the log. -/
def lineHasCoords (s : EngineState) (l : List Char) : Bool :=
  (lineScan s l).hasCoords || (lineScan s l).hasIJK

/-- `(dist_xyz_only, rot_deg_val, actual_dist)` of lines 148–194: TCP
compound for G01 in TCP mode, 6-axis Euclidean otherwise, overridden by
the XYZ-only distance for G00. -/
noncomputable def lineDistParts (s : EngineState) (l : List Char) : ℝ × ℝ × ℝ :=
  let nx := (lineScan s l).next
  let base :=
    if lineTcp s l && (lineMode s l == Mode.G01) then tcpCalc s.current_pos nx
    else ((0 : ℝ), (0 : ℝ), euclid6 s.current_pos nx)
  if lineMode s l == Mode.G00 then (base.1, base.2.1, dist3 s.current_pos nx) else base

noncomputable def segDistOf (s : EngineState) (l : List Char) : ℝ :=
  (lineDistParts s l).2.2

/-- `use_feed = current_feed if current_feed > 0 else 1000.0`. -/
def lineUseFeed (s : EngineState) (l : List Char) : ℚ :=
  if 0 < (lineScan s l).feed then (lineScan s l).feed else 1000

/-- The detailed-log segments appended by this line (empty or singleton). -/
noncomputable def lineSegs (idx : ℕ) (s : EngineState) (l : List Char) : List (Seg ℝ) :=
  if lineHasCoords s l then
    match lineMode s l with
    | Mode.G00 => []
    | Mode.G01 =>
      if 1e-6 < segDistOf s l then
        [{ line := idx + 1
           start := s.current_pos
           seg_end := (lineScan s l).next
           dist := segDistOf s l
           feed := ((lineUseFeed s l : ℚ) : ℝ)
           dist_xyz := (lineDistParts s l).1
           rot_deg := (lineDistParts s l).2.1
           is_tcp := lineTcp s l
           info := SegInfo.linearMove (lineTcp s l) }]
      else []
    | m =>
      -- G02 / G03: the chord is recomputed over XYZ (lines 247–249)
      if 1e-6 < dist3 s.current_pos (lineScan s l).next then
        [{ line := idx + 1
           start := s.current_pos
           seg_end := (lineScan s l).next
           dist := (arcCalc (dist3 s.current_pos (lineScan s l).next)
             ((lineScan s l).radius.map (fun q => (q : ℝ)))
             (lineScan s l).hasIJK (lineTcp s l)).1
           feed := ((lineUseFeed s l : ℚ) : ℝ)
           dist_xyz := 0
           rot_deg := 0
           is_tcp := false
           info := SegInfo.arcMove m
             (arcCalc (dist3 s.current_pos (lineScan s l).next)
               ((lineScan s l).radius.map (fun q => (q : ℝ)))
               (lineScan s l).hasIJK (lineTcp s l)).2 }]
      else []
  else []

/-- Classification of a non-coordinate line (lines 133–145). -/
def nonCoordTag (up : List Char) (feedAfter : ℚ) : LogTag :=
  if isSubstring (String.toList "F") up && decide (0 < feedAfter) then LogTag.setFeed
  else if isSubstring (String.toList "M") up then LogTag.auxM
  else if isSubstring (String.toList "S") up || isSubstring (String.toList "T") up then
    LogTag.toolSpeed
  else if up.head? = some 'G' then LogTag.prepOnly
  else if up.head? = some '%' || up.head? = some 'O' then LogTag.header
  else LogTag.noCoordInfo

/-- The `log_lines` entries appended by this line. -/
noncomputable def lineLogs (idx : ℕ) (s : EngineState) (l : List Char) : List LogLine :=
  if lineHasCoords s l then
    match lineMode s l with
    | Mode.G00 => [⟨idx + 1, pyStrip l, LogTag.rapid⟩]
    | Mode.G01 =>
      if 1e-6 < segDistOf s l then
        if (lineScan s l).feed ≤ 0 then [⟨idx + 1, pyStrip l, LogTag.noFeedWarn⟩] else []
      else [⟨idx + 1, pyStrip l, LogTag.stagnant⟩]
    | _ =>
      if 1e-6 < dist3 s.current_pos (lineScan s l).next then
        [⟨idx + 1, pyStrip l,
          LogTag.arcNote (arcCalc (dist3 s.current_pos (lineScan s l).next)
            ((lineScan s l).radius.map (fun q => (q : ℝ)))
            (lineScan s l).hasIJK (lineTcp s l)).2⟩]
      else [⟨idx + 1, pyStrip l, LogTag.emptyNote⟩]
  else [⟨idx + 1, pyStrip l, nonCoordTag (lineUp l) (lineScan s l).feed⟩]

/-- `total_g00_dist` increment of this line (lines 204–205). -/
noncomputable def lineG00Add (s : EngineState) (l : List Char) : ℝ :=
  if lineHasCoords s l && (lineMode s l == Mode.G00) then segDistOf s l else 0

/-- Chart segment start points appended (lines 220–221 and 280–281):
one XYZ start per appended detailed segment. -/
noncomputable def lineChartStarts (idx : ℕ) (s : EngineState) (l : List Char) :
    List (ℚ × ℚ × ℚ) :=
  (lineSegs idx s l).map (fun sg => (sg.start.x, sg.start.y, sg.start.z))

noncomputable def lineChartEnds (idx : ℕ) (s : EngineState) (l : List Char) :
    List (ℚ × ℚ × ℚ) :=
  (lineSegs idx s l).map (fun sg => (sg.seg_end.x, sg.seg_end.y, sg.seg_end.z))

/-- The loop body of `parse_and_calculate` for line index `idx` (0-based):
a blank (stripped) line is skipped; otherwise the mode, feed, TCP flag,
axes and position are updated and the distance/log bookkeeping runs.
`current_pos = next_pos` holds in every motion branch of the source, and
`next_pos` differs from `current_pos` exactly on the axes set on the line,
so the position update is unconditional here. -/
noncomputable def stepLine (idx : ℕ) (s : EngineState) (l : List Char) : EngineState :=
  if pyStrip l = [] then s
  else
    { current_pos := (lineScan s l).next
      current_feed := (lineScan s l).feed
      motion_mode := lineMode s l
      is_tcp_mode := lineTcp s l
      active_axes := (lineScan s l).axes
      total_g00_dist := s.total_g00_dist + lineG00Add s l
      detailed_logs := s.detailed_logs ++ lineSegs idx s l
      log_lines := s.log_lines ++ lineLogs idx s l
      g01_starts := s.g01_starts ++ lineChartStarts idx s l
      g01_ends := s.g01_ends ++ lineChartEnds idx s l }

/-- The loop without cancellation, starting at line index `idx`. -/
noncomputable def runPure (idx : ℕ) (s : EngineState) : List (List Char) → EngineState
  | [] => s
  | l :: ls => runPure (idx + 1) (stepLine idx s l) ls

/-- The loop with the progress callback: at every line index divisible by
2000 the callback is invoked and a `true` answer aborts the whole stage
with `none` (lines 86–88). -/
noncomputable def runEngine (cb : ℕ → Bool) (idx : ℕ) (s : EngineState) :
    List (List Char) → Option EngineState
  | [] => some s
  | l :: ls =>
    if idx % 2000 = 0 && cb idx then none
    else runEngine cb (idx + 1) (stepLine idx s l) ls

/-! ## The result record (lines 298–308) -/

/-- `sorted(list(active_axes.union({'X','Y','Z'})))`: Python sorts the
axis letters alphabetically, which for a subset of the nine axes is the
alphabetical-universe filter. -/
def final_axes (s : EngineState) : List Axis :=
  axisAlpha.filter (fun a => a ∈ s.active_axes ∪ ({Axis.X, Axis.Y, Axis.Z} : Finset Axis))

/-- The record returned by `parse_and_calculate`.  `calc_mode_tcp` stands
for the `calc_mode` label string, which reads "TCP 向量複合距離法(IJK)"
exactly when the sticky flag was ever set and the Euclidean label
otherwise. -/
structure ResultRecord where
  starts : List (ℚ × ℚ × ℚ)
  ends : List (ℚ × ℚ × ℚ)
  skipped : List LogLine
  axes : List Axis
  g00_dist : ℝ
  detailed_logs : List (Seg ℝ)
  calc_mode_tcp : Bool

noncomputable def mkResult (s : EngineState) : ResultRecord :=
  ⟨s.g01_starts, s.g01_ends, s.log_lines, final_axes s, s.total_g00_dist,
    s.detailed_logs, s.is_tcp_mode⟩

/-- Whole-stage `parse_and_calculate`: strip comments, strip, split into
lines, run the loop, package the record (or `none` on cancellation). -/
noncomputable def parse_and_calculate (cb : ℕ → Bool) (content : List Char) :
    Option ResultRecord :=
  (runEngine cb 0 initState (splitLines (pyStrip (stripComments content)))).map mkResult

/-- The keys of the dict literal returned by `parse_and_calculate`
(backend.py lines 300–308). -/
def recordKeys : List String :=
  ["starts", "ends", "skipped", "axes", "g00_dist", "detailed_logs", "calc_mode"]

/-- The fields the frontend reads out of that same record
(`update_results`, `refresh_detail_view` and `export_csv` in
`src/frontend/app_ui.py`: `raw_data["matrix"]`, `raw_data["lines"]`, …). -/
def uiReadKeys : List String :=
  ["matrix", "lines", "dists", "modes", "feeds", "dists_xyz", "rots_deg",
    "is_tcp", "g01_dist", "time"]

/-! ## Statistics stage (`calculate_metrics_and_stats`, backend.py 310–403)

The numeric type is a parameter (`LinearOrderedField α`): the engine feeds
it `ℝ`-valued segments, while exact test data over `ℚ` stays evaluable.
An interval is `(start, optional end)` with `none` for the `float('inf')`
end of the last, open-ended interval; the caller's `bins` edge list is
`[start of each interval] ++ [end of the last interval]` exactly as built
in `CAMApp.__init__`. -/

/-- One entry of `stats_list`.  `max_len` already holds the substituted
`s * 1.5` when the interval end is `inf` (backend.py line 382). -/
structure StatEntry (α : Type) where
  count : ℕ
  pct : α
  avg_feed : α
  min_len : α
  max_len : α
  deriving DecidableEq, Repr

structure BptInfo (α : Type) where
  min_bpt : α
  max_bpt : α
  f_avg : α
  deriving DecidableEq, Repr

/-- The 6-tuple returned by `calculate_metrics_and_stats`. -/
structure MetricsOut (α : Type) where
  all_distances : List α
  total_dist : α
  total_time_min : α
  top_10 : List (StatEntry α)
  top_3 : List (StatEntry α)
  bpt_info : Option (BptInfo α)
  deriving DecidableEq

variable {α : Type} [LinearOrderedField α]

/-- The `inf` edge of the caller's `bins` list, when the last interval is
bounded by a finite number instead (`none` = `inf`). -/
def lastEdge (intervals : List (α × Option α)) : Option α :=
  match intervals.getLast? with
  | some se => se.2
  | none => none

/-- `np.digitize(x, bins)` for the ascending edge list
`starts ++ [last end]`: the number of edges `≤ x` (an `inf` edge never
counts for a finite `x`). -/
def digitizeIdx (intervals : List (α × Option α)) (x : α) : ℕ :=
  (intervals.map Prod.fst).countP (fun e => decide (e ≤ x)) +
    (match lastEdge intervals with
     | some v => if v ≤ x then 1 else 0
     | none => 0)

/-- `bin_counts[i+1]`: segments whose distance lands in interval `i`. -/
def intervalCount (logs : List (Seg α)) (intervals : List (α × Option α)) (i : ℕ) : ℕ :=
  logs.countP (fun g => digitizeIdx intervals g.dist == i + 1)

/-- `bin_feed_sums[i+1]`: summed feed of the segments in interval `i`. -/
def intervalFeedSum (logs : List (Seg α)) (intervals : List (α × Option α)) (i : ℕ) : α :=
  ((logs.filter (fun g => digitizeIdx intervals g.dist == i + 1)).map Seg.feed).sum

/-- The `stats_list` entry built for interval `i = (s, e)` (lines 354–383). -/
def mkStatEntry (logs : List (Seg α)) (intervals : List (α × Option α))
    (i : ℕ) (se : α × Option α) : StatEntry α :=
  let count := intervalCount logs intervals i
  { count := count
    pct := ((count : α) / (logs.length : α)) * 100
    avg_feed := if 0 < count then intervalFeedSum logs intervals i / (count : α) else 1000
    min_len := se.1
    max_len := match se.2 with | some v => v | none => se.1 * (3 / 2) }

/-- `stats_list` before sorting: one entry per interval in input order,
zero-count intervals skipped (`if count == 0: continue`). -/
def preStats (logs : List (Seg α)) (intervals : List (α × Option α)) : List (StatEntry α) :=
  intervals.enum.filterMap (fun p =>
    if intervalCount logs intervals p.1 = 0 then none
    else some (mkStatEntry logs intervals p.1 p.2))

/-- Stable insertion for a descending-by-count order: a new element goes
after every element with a count ≥ its own, so elements with equal counts
keep their original relative order — the behaviour of Python's stable
`list.sort(key=..., reverse=True)`. -/
def insertCountDesc (x : StatEntry α) : List (StatEntry α) → List (StatEntry α)
  | [] => [x]
  | y :: ys => if y.count < x.count then x :: y :: ys else y :: insertCountDesc x ys

/-- `stats_list.sort(key=lambda x: x['count'], reverse=True)`. -/
def sortCountDesc (l : List (StatEntry α)) : List (StatEntry α) :=
  l.foldl (fun acc x => insertCountDesc x acc) []

def rankedStats (logs : List (Seg α)) (intervals : List (α × Option α)) : List (StatEntry α) :=
  sortCountDesc (preStats logs intervals)

/-- The cancellation-free computation of the statistics stage. -/
def pureMetrics (logs : List (Seg α)) (intervals : List (α × Option α)) : MetricsOut α :=
  let ranked := rankedStats logs intervals
  { all_distances := logs.map Seg.dist
    total_dist := (logs.map Seg.dist).sum
    total_time_min := (logs.map (fun g => if 0 < g.feed then g.dist / g.feed else 0)).sum
    top_10 := ranked.take 10
    top_3 := ranked.take 3
    bpt_info :=
      match ranked with
      | [] => none
      | top1 :: _ =>
        if 0 < top1.avg_feed then
          some ⟨top1.min_len / top1.avg_feed * 60000, top1.max_len / top1.avg_feed * 60000,
            top1.avg_feed⟩
        else none }

/-- `calculate_metrics_and_stats`: empty input returns the empty tuple at
once; otherwise the accumulation loop polls the callback at every record
index divisible by 10000 and a `true` answer aborts with `none`
(lines 313–328); the rest of the stage is pure. -/
def calculate_metrics_and_stats (cb : ℕ → Bool) (logs : List (Seg α))
    (intervals : List (α × Option α)) : Option (MetricsOut α) :=
  if logs.isEmpty then some ⟨[], 0, 0, [], [], none⟩
  else if (List.range logs.length).any (fun i => i % 10000 == 0 && cb i) then none
  else some (pureMetrics logs intervals)

/-! ## Basic facts about the per-line step -/

theorem tokenize_nil : tokenize [] = [] := rfl

theorem scanTokens_nil (p : Pos) (f : ℚ) (ax : Finset Axis) :
    scanTokens p f ax [] =
      { next := p, feed := f, radius := none, hasCoords := false, hasIJK := false, axes := ax } :=
  rfl

theorem lineScan_blank {l : List Char} (h : pyStrip l = []) (s : EngineState) :
    lineScan s l =
      { next := s.current_pos, feed := s.current_feed, radius := none,
        hasCoords := false, hasIJK := false, axes := s.active_axes } := by
  unfold lineScan
  rw [h, tokenize_nil, scanTokens_nil]

theorem modeTokenOf_nil : modeTokenOf [] = none := by decide

theorem lineMode_blank {l : List Char} (h : pyStrip l = []) (s : EngineState) :
    lineMode s l = s.motion_mode := by
  unfold lineMode lineUp
  rw [h]
  simp [upperChars, modeTokenOf_nil]

theorem stepLine_pos (idx : ℕ) (s : EngineState) (l : List Char) :
    (stepLine idx s l).current_pos = (lineScan s l).next := by
  unfold stepLine
  split
  · next h => rw [lineScan_blank h]
  · rfl

theorem stepLine_feed (idx : ℕ) (s : EngineState) (l : List Char) :
    (stepLine idx s l).current_feed = (lineScan s l).feed := by
  unfold stepLine
  split
  · next h => rw [lineScan_blank h]
  · rfl

theorem stepLine_mode (idx : ℕ) (s : EngineState) (l : List Char) :
    (stepLine idx s l).motion_mode = lineMode s l := by
  unfold stepLine
  split
  · next h => rw [lineMode_blank h]
  · rfl

theorem stepLine_isTcp (idx : ℕ) (s : EngineState) (l : List Char) :
    (stepLine idx s l).is_tcp_mode = lineTcp s l := by
  unfold stepLine
  split
  · next h =>
    unfold lineTcp
    rw [lineScan_blank h]
    simp
  · rfl

theorem stepLine_axes (idx : ℕ) (s : EngineState) (l : List Char) :
    (stepLine idx s l).active_axes = (lineScan s l).axes := by
  unfold stepLine
  split
  · next h => rw [lineScan_blank h]
  · rfl

theorem lineHasCoords_blank {l : List Char} (h : pyStrip l = []) (s : EngineState) :
    lineHasCoords s l = false := by
  unfold lineHasCoords
  rw [lineScan_blank h]
  rfl

theorem lineSegs_blank {l : List Char} (h : pyStrip l = []) (idx : ℕ) (s : EngineState) :
    lineSegs idx s l = [] := by
  unfold lineSegs
  rw [lineHasCoords_blank h]
  simp

theorem stepLine_segs (idx : ℕ) (s : EngineState) (l : List Char) :
    (stepLine idx s l).detailed_logs = s.detailed_logs ++ lineSegs idx s l := by
  unfold stepLine
  split
  · next h => rw [lineSegs_blank h]; simp
  · rfl

/-- `runPure` processes an appended line last. -/
theorem runPure_append (idx : ℕ) (s : EngineState) (ls : List (List Char)) (l : List Char) :
    runPure idx s (ls ++ [l]) = stepLine (idx + ls.length) (runPure idx s ls) l := by
  induction ls generalizing idx s with
  | nil => simp [runPure]
  | cons x xs ih =>
    simp only [List.cons_append, runPure, List.append_eq]
    rw [ih]
    congr 1
    simp [List.length_cons]
    omega

/-! ## C1: the forward-fill invariant -/

/-- Spec side: the value a token explicitly writes to axis `a`, if any (a
token counts only if its number parses, exactly as in the engine's token
loop). -/
def axisValOf (a : Axis) (t : Char × List Char) : Option ℚ :=
  match pyFloat t.2, axisOfChar t.1 with
  | some v, some a2 => if a2 = a then some v else none
  | _, _ => none

/-- Spec side: the values explicitly written to axis `a` by line `l`, in
token order. -/
def lineAxisVals (l : List Char) (a : Axis) : List ℚ :=
  (tokenize (pyStrip l)).filterMap (axisValOf a)

theorem axisValOf_bad {t : Char × List Char} (a : Axis) (h : pyFloat t.2 = none) :
    axisValOf a t = none := by
  unfold axisValOf
  rw [h]

theorem axisValOf_noaxis {t : Char × List Char} (a : Axis) {v : ℚ}
    (hf : pyFloat t.2 = some v) (ha : axisOfChar t.1 = none) : axisValOf a t = none := by
  unfold axisValOf
  rw [hf, ha]

theorem axisValOf_axis {t : Char × List Char} (a : Axis) {v : ℚ} {a2 : Axis}
    (hf : pyFloat t.2 = some v) (ha : axisOfChar t.1 = some a2) :
    axisValOf a t = if a2 = a then some v else none := by
  unfold axisValOf
  rw [hf, ha]

theorem Pos.get_set (p : Pos) (a2 a : Axis) (v : ℚ) :
    (p.set a2 v).get a = if a2 = a then v else p.get a := by
  cases a2 <;> cases a <;> simp [Pos.set, Pos.get]

theorem getD_irrel {β : Type} (o : Option β) (h : o.isSome = true) (d d2 : β) :
    o.getD d = o.getD d2 := by
  cases o with
  | none => simp at h
  | some u => rfl

theorem lastGetD_append {β : Type} (x y : List β) (d : β) :
    ((x ++ y).getLast?).getD d = (y.getLast?).getD ((x.getLast?).getD d) := by
  cases hy : y with
  | nil => simp
  | cons b bs =>
    rw [List.getLast?_append_of_ne_nil x (by simp)]
    exact getD_irrel _ (by rw [List.getLast?_isSome]; simp) _ _

theorem lastGetD_cons {β : Type} (v d : β) (rest : List β) :
    (((v :: rest).getLast?).getD d) = ((rest.getLast?).getD v) := by
  cases rest with
  | nil => rfl
  | cons b bs =>
    rw [List.getLast?_cons_cons]
    exact getD_irrel _ (by rw [List.getLast?_isSome]; simp) _ _

theorem scanToken_next_of_bad (o : ScanOut) (t : Char × List Char)
    (h : pyFloat t.2 = none) : (scanToken o t).next = o.next := by
  unfold scanToken
  rw [h]

theorem scanToken_next_of_noaxis (o : ScanOut) (t : Char × List Char) {v : ℚ}
    (hf : pyFloat t.2 = some v) (ha : axisOfChar t.1 = none) :
    (scanToken o t).next = o.next := by
  unfold scanToken
  rw [hf]
  simp only
  by_cases hF : t.1 = 'F'
  · simp [hF]
  · by_cases hR : t.1 = 'R'
    · simp [hF, hR]
    · simp only [hF, hR, if_false, if_neg]
      rw [ha]

theorem scanToken_next_of_axis (o : ScanOut) (t : Char × List Char) {v : ℚ} {a2 : Axis}
    (hf : pyFloat t.2 = some v) (ha : axisOfChar t.1 = some a2) :
    (scanToken o t).next = o.next.set a2 v := by
  unfold scanToken
  rw [hf]
  simp only
  have hF : ¬t.1 = 'F' := by
    intro h
    rw [h] at ha
    have h0 : axisOfChar 'F' = none := by decide
    rw [h0] at ha
    cases ha
  have hR : ¬t.1 = 'R' := by
    intro h
    rw [h] at ha
    have h0 : axisOfChar 'R' = none := by decide
    rw [h0] at ha
    cases ha
  simp only [hF, hR, if_false, if_neg]
  rw [ha]

/-- One token's effect on the scanned position, observed on axis `a`. -/
theorem scanToken_next_get_val (o : ScanOut) (t : Char × List Char) (a : Axis) :
    (scanToken o t).next.get a = (axisValOf a t).getD (o.next.get a) := by
  cases hf : pyFloat t.2 with
  | none => rw [scanToken_next_of_bad o t hf, axisValOf_bad a hf]; rfl
  | some v =>
    cases ha : axisOfChar t.1 with
    | none => rw [scanToken_next_of_noaxis o t hf ha, axisValOf_noaxis a hf ha]; rfl
    | some a2 =>
      rw [scanToken_next_of_axis o t hf ha, axisValOf_axis a hf ha, Pos.get_set]
      by_cases haa : a2 = a
      · simp [haa]
      · simp [haa]

/-- The token loop realizes "last explicit value else unchanged" per axis. -/
theorem scanTokens_next_get (ts : List (Char × List Char)) (o : ScanOut) (a : Axis) :
    ((ts.foldl scanToken o).next.get a) =
      ((ts.filterMap (axisValOf a)).getLast?).getD (o.next.get a) := by
  induction ts generalizing o with
  | nil => rfl
  | cons t ts ih =>
    rw [List.foldl_cons, List.filterMap_cons]
    cases hv : axisValOf a t with
    | none =>
      simp only
      rw [ih]
      have h1 := scanToken_next_get_val o t a
      rw [hv] at h1
      rw [h1]
      rfl
    | some v =>
      simp only
      rw [ih]
      have h1 := scanToken_next_get_val o t a
      rw [hv] at h1
      simp only [Option.getD_some] at h1
      rw [h1, lastGetD_cons]

/-- One processed line overwrites exactly the explicitly-set axes. -/
theorem stepLine_pos_get (idx : ℕ) (s : EngineState) (l : List Char) (a : Axis) :
    (stepLine idx s l).current_pos.get a =
      ((lineAxisVals l a).getLast?).getD (s.current_pos.get a) := by
  rw [stepLine_pos]
  unfold lineScan scanTokens lineAxisVals
  exact scanTokens_next_get _ _ a

theorem initState_pos_get (a : Axis) : initState.current_pos.get a = homePos.get a := rfl

/-- Whole-run version: the position after a list of lines. -/
theorem runPure_pos_get (ls : List (List Char)) (idx : ℕ) (s : EngineState) (a : Axis) :
    (runPure idx s ls).current_pos.get a =
      (((ls.map (fun l => lineAxisVals l a)).flatten.getLast?).getD (s.current_pos.get a)) := by
  induction ls generalizing idx s with
  | nil => rfl
  | cons l ls ih =>
    simp only [runPure, List.map_cons, List.flatten_cons]
    rw [ih, lastGetD_append, stepLine_pos_get]

/-- C1: Forward-fill invariant — after the engine processes the first `i`
lines, the tracked position on every axis equals the last value explicitly
written to that axis on a line ≤ i (the last matching token of the last
line touching the axis), or the row-0 home default (all zero, K = 1) if
the axis was never explicitly set; equivalently, processing one more line
overwrites exactly the axes explicitly set on that line and leaves every
other axis unchanged. -/
theorem forward_fill_invariant (lines : List (List Char)) (i : ℕ) (a : Axis) :
    (runPure 0 initState (lines.take i)).current_pos.get a
      = ((((lines.take i).map (fun l => lineAxisVals l a)).flatten.getLast?).getD
          (homePos.get a))
    ∧ ∀ (ls : List (List Char)) (l : List Char),
        (runPure 0 initState (ls ++ [l])).current_pos.get a
          = ((lineAxisVals l a).getLast?).getD
              ((runPure 0 initState ls).current_pos.get a) := by
  constructor
  · rw [runPure_pos_get]
    rfl
  · intro ls l
    rw [runPure_append, stepLine_pos_get]

/-! ## C3: modal motion mode -/

/-- The running mode after a list of lines is the last mode token seen (in
the priority order of the `elif` chain), or the starting mode if none. -/
theorem runPure_mode (ls : List (List Char)) (idx : ℕ) (s : EngineState) :
    (runPure idx s ls).motion_mode
      = ((ls.filterMap (fun l => modeTokenOf (lineUp l))).getLast?).getD s.motion_mode := by
  induction ls generalizing idx s with
  | nil => rfl
  | cons l ls ih =>
    simp only [runPure, List.filterMap_cons]
    cases hm : modeTokenOf (lineUp l) with
    | none =>
      rw [ih, stepLine_mode]
      unfold lineMode
      rw [hm]
      rfl
    | some m =>
      rw [ih, stepLine_mode, lastGetD_cons]
      unfold lineMode
      rw [hm]
      rfl

/-- C3 (amended): motion mode is modal — a mode substring `G00`–`G03`
(zero-padded two-digit form only, priority G00 > G01 > G02 > G03 within a
line) sets the running mode, which persists across all subsequent lines
until another mode token appears; a line with coordinates but no mode
token is processed in the last declared mode. -/
theorem modal_mode_last_token (ls : List (List Char)) (idx : ℕ) (s : EngineState) :
    (runPure idx s ls).motion_mode
      = ((ls.filterMap (fun l => modeTokenOf (lineUp l))).getLast?).getD s.motion_mode :=
  runPure_mode ls idx s

/-- C3 counterexample: the claim accepts the non-zero-padded form (`G1`),
but the engine's substring test `'G01' in line_upper` does not match
`G1 X10 F100`, so the mode stays `G00` where the claim requires `G01` —
while the zero-padded `G01 X10` does switch the mode. -/
theorem modal_mode_counterexample :
    (runPure 0 initState [String.toList "G1 X10 F100"]).motion_mode = Mode.G00
    ∧ isSubstring (String.toList "G1") (lineUp (String.toList "G1 X10 F100")) = true
    ∧ (runPure 0 initState [String.toList "G01 X10 F100"]).motion_mode = Mode.G01 := by
  refine ⟨?_, by decide, ?_⟩
  · show (stepLine 0 initState (String.toList "G1 X10 F100")).motion_mode = Mode.G00
    rw [stepLine_mode]
    decide
  · show (stepLine 0 initState (String.toList "G01 X10 F100")).motion_mode = Mode.G01
    rw [stepLine_mode]
    decide

/-! ## C8: detected axes -/

/-- The axis a token explicitly sets, if any. -/
def tokenAxisOf (t : Char × List Char) : Option Axis :=
  match pyFloat t.2, axisOfChar t.1 with
  | some _, some a => some a
  | _, _ => none

/-- Spec side: the set of axes that actually received an explicit
coordinate value somewhere in the program. -/
def explicitAxes (ls : List (List Char)) : Finset Axis :=
  ((ls.map (fun l => (tokenize (pyStrip l)).filterMap tokenAxisOf)).flatten).toFinset

theorem scanToken_axes (o : ScanOut) (t : Char × List Char) :
    (scanToken o t).axes =
      match tokenAxisOf t with
      | some a => insert a o.axes
      | none => o.axes := by
  unfold scanToken tokenAxisOf
  cases hf : pyFloat t.2 with
  | none => simp
  | some v =>
    simp only
    by_cases hF : t.1 = 'F'
    · have h0 : axisOfChar t.1 = none := by rw [hF]; decide
      rw [h0]
      simp [hF]
    · by_cases hR : t.1 = 'R'
      · have h0 : axisOfChar t.1 = none := by rw [hR]; decide
        rw [h0]
        simp [hF, hR]
      · simp only [hF, hR, if_false, if_neg]
        cases ha : axisOfChar t.1 with
        | none => simp
        | some a2 => simp

theorem scanTokens_axes (ts : List (Char × List Char)) (o : ScanOut) :
    (ts.foldl scanToken o).axes = o.axes ∪ (ts.filterMap tokenAxisOf).toFinset := by
  induction ts generalizing o with
  | nil => simp
  | cons t ts ih =>
    rw [List.foldl_cons, List.filterMap_cons]
    cases ht : tokenAxisOf t with
    | none =>
      simp only
      rw [ih, scanToken_axes]
      rw [ht]
    | some a =>
      simp only
      rw [ih, scanToken_axes, ht]
      simp only [List.toFinset_cons]
      ext b
      simp [Finset.mem_union, Finset.mem_insert]

theorem runPure_axes (ls : List (List Char)) (idx : ℕ) (s : EngineState) :
    (runPure idx s ls).active_axes = s.active_axes ∪ explicitAxes ls := by
  induction ls generalizing idx s with
  | nil => simp [runPure, explicitAxes]
  | cons l ls ih =>
    simp only [runPure]
    rw [ih, stepLine_axes]
    unfold lineScan scanTokens
    rw [scanTokens_axes]
    unfold explicitAxes
    simp only [List.map_cons, List.flatten_cons, List.toFinset_append]
    ext b
    simp [Finset.mem_union]

/-- C8 (amended): the reported detected-axes list is the set of axes that
actually received an explicit coordinate value, **always joined with
{X, Y, Z}**, sorted alphabetically — so Z (and X, Y) appear even when the
program never sets them, while A, B, C, I, J, K appear only when
explicitly set; the frontend then shows columns for exactly the detected
axes in the fixed priority order X,Y,Z,A,B,C,I,J,K. -/
theorem detected_axes_characterization (ls : List (List Char)) :
    final_axes (runPure 0 initState ls)
      = axisAlpha.filter
          (fun a => a ∈ explicitAxes ls ∪ ({Axis.X, Axis.Y, Axis.Z} : Finset Axis))
    ∧ axisPriority.filter (fun a => a ∈ final_axes (runPure 0 initState ls))
      = axisPriority.filter
          (fun a => a ∈ explicitAxes ls ∪ ({Axis.X, Axis.Y, Axis.Z} : Finset Axis)) := by
  have hax : final_axes (runPure 0 initState ls)
      = axisAlpha.filter
          (fun a => a ∈ explicitAxes ls ∪ ({Axis.X, Axis.Y, Axis.Z} : Finset Axis)) := by
    unfold final_axes
    rw [runPure_axes]
    have h0 : initState.active_axes = ∅ := rfl
    rw [h0]
    simp [Finset.empty_union]
  refine ⟨hax, ?_⟩
  have hmem : ∀ a : Axis,
      (a ∈ final_axes (runPure 0 initState ls))
        ↔ a ∈ explicitAxes ls ∪ ({Axis.X, Axis.Y, Axis.Z} : Finset Axis) := by
    intro a
    rw [hax]
    have halpha : a ∈ axisAlpha := by cases a <;> simp [axisAlpha]
    constructor
    · intro h
      exact of_decide_eq_true (List.mem_filter.mp h).2
    · intro h
      exact List.mem_filter.mpr ⟨halpha, decide_eq_true h⟩
  refine List.filter_congr ?_
  intro a _
  rw [decide_eq_decide]
  exact hmem a

/-! ## C5: TCP stickiness, and C2: the TCP compound distance -/

theorem lineTcp_of_true (s : EngineState) (l : List Char) (h : s.is_tcp_mode = true) :
    lineTcp s l = true := by
  unfold lineTcp
  rw [h]
  rfl

/-- Once set, the sticky flag survives any successful remainder of the run. -/
theorem runEngine_tcp_mono (ls : List (List Char)) (cb : ℕ → Bool) (idx : ℕ)
    (s s' : EngineState) (hrun : runEngine cb idx s ls = some s')
    (h : s.is_tcp_mode = true) : s'.is_tcp_mode = true := by
  induction ls generalizing idx s with
  | nil =>
    simp only [runEngine, Option.some.injEq] at hrun
    rw [← hrun]
    exact h
  | cons l ls ih =>
    unfold runEngine at hrun
    split at hrun
    · exact absurd hrun (by simp)
    · exact ih _ _ hrun (by rw [stepLine_isTcp]; exact lineTcp_of_true _ _ h)

/-- With the flag up and mode G01, the distance parts come from `tcpCalc`
— independently of whether the line itself carried I/J/K tokens. -/
theorem lineDistParts_tcp (s : EngineState) (l : List Char)
    (ht : lineTcp s l = true) (hm : lineMode s l = Mode.G01) :
    lineDistParts s l = tcpCalc s.current_pos (lineScan s l).next := by
  unfold lineDistParts
  rw [ht, hm]
  simp

theorem segDist_tcp_routing (s : EngineState) (l : List Char)
    (ht : lineTcp s l = true) (hm : lineMode s l = Mode.G01) :
    segDistOf s l = (tcpCalc s.current_pos (lineScan s l).next).2.2 := by
  unfold segDistOf
  rw [lineDistParts_tcp s l ht hm]

/-- C5: TCP stickiness — once the sticky flag is true it stays true
through every further processed line of the run, and every G01 segment
computed while it is true (whether or not the line carries I/J/K tokens)
takes its distance from the TCP compound formula `tcpCalc` instead of the
6-axis Euclidean norm. -/
theorem tcp_stickiness (cb : ℕ → Bool) (idx : ℕ) (s s' s2 : EngineState)
    (ls : List (List Char)) (l : List Char)
    (hrun : runEngine cb idx s ls = some s')
    (htcp : s.is_tcp_mode = true)
    (h2 : s2.is_tcp_mode = true)
    (hm : lineMode s2 l = Mode.G01) :
    s'.is_tcp_mode = true
    ∧ segDistOf s2 l = (tcpCalc s2.current_pos (lineScan s2 l).next).2.2 :=
  ⟨runEngine_tcp_mono ls cb idx s s' hrun htcp,
   segDist_tcp_routing s2 l (lineTcp_of_true s2 l h2) hm⟩

theorem tcp_stickiness_witness :
    (runEngine (fun _ => false) 0 { initState with is_tcp_mode := true }
        [String.toList "G01 X5 F100"]
      = some (stepLine 0 { initState with is_tcp_mode := true }
          (String.toList "G01 X5 F100")))
    ∧ ({ initState with is_tcp_mode := true } : EngineState).is_tcp_mode = true
    ∧ lineMode { initState with is_tcp_mode := true } (String.toList "G01 X5 F100")
        = Mode.G01
    ∧ (stepLine 0 { initState with is_tcp_mode := true }
        (String.toList "G01 X5 F100")).is_tcp_mode = true
    ∧ segDistOf { initState with is_tcp_mode := true } (String.toList "G01 X5 F100")
        = (tcpCalc ({ initState with is_tcp_mode := true } : EngineState).current_pos
            (lineScan { initState with is_tcp_mode := true }
              (String.toList "G01 X5 F100")).next).2.2 := by
  have hrun : runEngine (fun _ => false) 0 { initState with is_tcp_mode := true }
      [String.toList "G01 X5 F100"]
      = some (stepLine 0 { initState with is_tcp_mode := true }
          (String.toList "G01 X5 F100")) := by
    simp [runEngine]
  have h2 : ({ initState with is_tcp_mode := true } : EngineState).is_tcp_mode = true := rfl
  have hm : lineMode { initState with is_tcp_mode := true }
      (String.toList "G01 X5 F100") = Mode.G01 := by decide
  have main := tcp_stickiness (fun _ => false) 0 _ _ _ _ _ hrun h2 h2 hm
  exact ⟨hrun, h2, hm, main.1, main.2⟩

/-! Spec-side formulation of the TCP compound distance (C2), written
from the specification's wording. -/

/-- Spec side: "normalize the tool-axis vectors … if a vector's norm is
zero, treat it as already unit and skip normalization". -/
noncomputable def specNormalize (v : ℝ × ℝ × ℝ) : ℝ × ℝ × ℝ :=
  if norm3 v = 0 then v else (v.1 / norm3 v, v.2.1 / norm3 v, v.2.2 / norm3 v)

/-- Spec side: `angle_deg = degrees(acos(clamp(dot(v1n, v2n), −1, 1)))`. -/
noncomputable def specAngleDeg (v1 v2 : ℝ × ℝ × ℝ) : ℝ :=
  Real.arccos (max (-1) (min 1 (dot3 (specNormalize v1) (specNormalize v2)))) * 180 / Real.pi

/-- Spec side: compound distance `sqrt(d_xyz² + angle_deg²)` where `d_xyz`
is the Euclidean norm of the XYZ displacement. -/
noncomputable def specCompound (p q : Pos) : ℝ :=
  Real.sqrt
    ((Real.sqrt (((q.x - p.x : ℚ) : ℝ) ^ 2 + ((q.y - p.y : ℚ) : ℝ) ^ 2
        + ((q.z - p.z : ℚ) : ℝ) ^ 2)) ^ 2
      + (specAngleDeg (ijkVec p) (ijkVec q)) ^ 2)

/-- The code's `norm > 0` test agrees with the spec's `norm = 0` test,
because a Euclidean norm is never negative. -/
theorem codeNormalize_eq_spec (v : ℝ × ℝ × ℝ) : codeNormalize v = specNormalize v := by
  unfold codeNormalize specNormalize
  by_cases h : norm3 v = 0
  · rw [if_neg (by rw [h]; exact lt_irrefl 0), if_pos h]
  · have hpos : 0 < norm3 v :=
      lt_of_le_of_ne (by unfold norm3; exact Real.sqrt_nonneg _) (Ne.symm h)
    rw [if_pos hpos, if_neg h]

theorem tcpCalc_eq_spec (p q : Pos) :
    (tcpCalc p q).1 = dist3 p q
    ∧ (tcpCalc p q).2.1 = specAngleDeg (ijkVec p) (ijkVec q)
    ∧ (tcpCalc p q).2.2 = specCompound p q := by
  refine ⟨rfl, ?_, ?_⟩
  · show degOf (Real.arccos (clampVal
      (dot3 (codeNormalize (ijkVec p)) (codeNormalize (ijkVec q)))))
      = specAngleDeg (ijkVec p) (ijkVec q)
    rw [codeNormalize_eq_spec, codeNormalize_eq_spec]
    rfl
  · show Real.sqrt ((dist3 p q) ^ 2 + (degOf (Real.arccos (clampVal
      (dot3 (codeNormalize (ijkVec p)) (codeNormalize (ijkVec q)))))) ^ 2)
      = specCompound p q
    rw [codeNormalize_eq_spec, codeNormalize_eq_spec]
    rfl

/-- The segment list of a G01 coordinate line, explicitly. -/
theorem lineSegs_g01 (idx : ℕ) (s : EngineState) (l : List Char)
    (hc : lineHasCoords s l = true) (hm : lineMode s l = Mode.G01) :
    lineSegs idx s l =
      if 1e-6 < segDistOf s l then
        [{ line := idx + 1
           start := s.current_pos
           seg_end := (lineScan s l).next
           dist := segDistOf s l
           feed := ((lineUseFeed s l : ℚ) : ℝ)
           dist_xyz := (lineDistParts s l).1
           rot_deg := (lineDistParts s l).2.1
           is_tcp := lineTcp s l
           info := SegInfo.linearMove (lineTcp s l) }]
      else [] := by
  unfold lineSegs
  rw [if_pos hc, hm]

/-- C2: every G01 segment processed while TCP mode is active records the
spec's compound distance `sqrt(d_xyz² + angle_deg²)`, the XYZ distance,
and the angle obtained from the normalized (zero-norm-skipping) tool-axis
vectors via the clamped arccos in degrees. -/
theorem tcp_compound_distance (idx : ℕ) (s : EngineState) (l : List Char)
    (ht : lineTcp s l = true) (hm : lineMode s l = Mode.G01) :
    List.Forall (fun sg =>
        sg.dist = specCompound s.current_pos (lineScan s l).next
        ∧ sg.dist_xyz = dist3 s.current_pos (lineScan s l).next
        ∧ sg.rot_deg = specAngleDeg (ijkVec s.current_pos) (ijkVec (lineScan s l).next))
      (lineSegs idx s l) := by
  obtain ⟨he1, he2, he3⟩ := tcpCalc_eq_spec s.current_pos (lineScan s l).next
  by_cases hc : lineHasCoords s l
  · rw [lineSegs_g01 idx s l hc hm]
    split
    · show _ ∧ _ ∧ _
      refine ⟨?_, ?_, ?_⟩
      · show segDistOf s l = _
        rw [segDist_tcp_routing s l ht hm, he3]
      · show (lineDistParts s l).1 = _
        rw [lineDistParts_tcp s l ht hm, he1]
      · show (lineDistParts s l).2.1 = _
        rw [lineDistParts_tcp s l ht hm, he2]
    · trivial
  · unfold lineSegs
    rw [if_neg hc]
    trivial

theorem tcp_compound_distance_witness :
    lineTcp { initState with is_tcp_mode := true, motion_mode := Mode.G01 }
        (String.toList "X3 Y4") = true
    ∧ lineMode { initState with is_tcp_mode := true, motion_mode := Mode.G01 }
        (String.toList "X3 Y4") = Mode.G01
    ∧ List.Forall (fun sg =>
        sg.dist = specCompound
          ({ initState with is_tcp_mode := true, motion_mode := Mode.G01 } :
            EngineState).current_pos
          (lineScan { initState with is_tcp_mode := true, motion_mode := Mode.G01 }
            (String.toList "X3 Y4")).next
        ∧ sg.dist_xyz = dist3
            ({ initState with is_tcp_mode := true, motion_mode := Mode.G01 } :
              EngineState).current_pos
            (lineScan { initState with is_tcp_mode := true, motion_mode := Mode.G01 }
              (String.toList "X3 Y4")).next
        ∧ sg.rot_deg = specAngleDeg
            (ijkVec ({ initState with is_tcp_mode := true, motion_mode := Mode.G01 } :
              EngineState).current_pos)
            (ijkVec (lineScan { initState with is_tcp_mode := true, motion_mode := Mode.G01 }
              (String.toList "X3 Y4")).next))
      (lineSegs 7 { initState with is_tcp_mode := true, motion_mode := Mode.G01 }
        (String.toList "X3 Y4")) :=
  ⟨by decide, by decide, tcp_compound_distance 7 _ _ (by decide) (by decide)⟩

/-! ## C4: circular (G02/G03) segments -/

/-- The segment list of a G02/G03 coordinate line, explicitly. -/
theorem lineSegs_arc (idx : ℕ) (s : EngineState) (l : List Char) (m : Mode)
    (hc : lineHasCoords s l = true) (hm2 : m = Mode.G02 ∨ m = Mode.G03)
    (hmode : lineMode s l = m) :
    lineSegs idx s l =
      if 1e-6 < dist3 s.current_pos (lineScan s l).next then
        [{ line := idx + 1
           start := s.current_pos
           seg_end := (lineScan s l).next
           dist := (arcCalc (dist3 s.current_pos (lineScan s l).next)
             ((lineScan s l).radius.map (fun q => (q : ℝ)))
             (lineScan s l).hasIJK (lineTcp s l)).1
           feed := ((lineUseFeed s l : ℚ) : ℝ)
           dist_xyz := 0
           rot_deg := 0
           is_tcp := false
           info := SegInfo.arcMove m
             (arcCalc (dist3 s.current_pos (lineScan s l).next)
               ((lineScan s l).radius.map (fun q => (q : ℝ)))
               (lineScan s l).hasIJK (lineTcp s l)).2 }]
      else [] := by
  unfold lineSegs
  rw [if_pos hc]
  rcases hm2 with h | h <;> subst h <;> rw [hmode]

/-- The log entry of a G02/G03 coordinate line, explicitly. -/
theorem lineLogs_arc (idx : ℕ) (s : EngineState) (l : List Char) (m : Mode)
    (hc : lineHasCoords s l = true) (hm2 : m = Mode.G02 ∨ m = Mode.G03)
    (hmode : lineMode s l = m) :
    lineLogs idx s l =
      if 1e-6 < dist3 s.current_pos (lineScan s l).next then
        [⟨idx + 1, pyStrip l,
          LogTag.arcNote (arcCalc (dist3 s.current_pos (lineScan s l).next)
            ((lineScan s l).radius.map (fun q => (q : ℝ)))
            (lineScan s l).hasIJK (lineTcp s l)).2⟩]
      else [⟨idx + 1, pyStrip l, LogTag.emptyNote⟩] := by
  unfold lineLogs
  rw [if_pos hc]
  rcases hm2 with h | h <;> subst h <;> rw [hmode]

/-- C4: for a G02/G03 segment with chord `d` above the near-zero
threshold — if `R` is declared and `d ≤ 2|R|` the recorded distance is the
arc length `|R|·θ` with `θ = 2·asin(d/(2|R|))`, reflexed to `2π − θ` for
negative `R`; the boundary `d = 2|R|` is a valid half circle of length
`|R|·π`, not a radius error; if `d > 2|R|` the distance falls back to the
chord and the segment is tagged as a radius error; with no `R` the chord
is used and the tag is never the valid-arc tag; and the engine's G02/G03
branch records exactly the `arcCalc` result and appends the tagged log
entry. -/
theorem arc_length_rule (d rv : ℝ) (hasIJK tcp : Bool) (idx : ℕ)
    (s : EngineState) (l : List Char) (m : Mode)
    (hd : (1e-6 : ℝ) < d)
    (hm2 : m = Mode.G02 ∨ m = Mode.G03)
    (hmode : lineMode s l = m)
    (hcoord : lineHasCoords s l = true)
    (hchord : (1e-6 : ℝ) < dist3 s.current_pos (lineScan s l).next) :
    (d ≤ 2 * |rv| →
      arcCalc d (some rv) hasIJK tcp
        = (|rv| * (if rv < 0 then 2 * Real.pi - 2 * Real.arcsin (d / (2 * |rv|))
            else 2 * Real.arcsin (d / (2 * |rv|))), ArcTag.validArc))
    ∧ (d = 2 * |rv| → arcCalc d (some rv) hasIJK tcp = (|rv| * Real.pi, ArcTag.validArc))
    ∧ (2 * |rv| < d → arcCalc d (some rv) hasIJK tcp = (d, ArcTag.radiusError))
    ∧ ((arcCalc d none hasIJK tcp).1 = d ∧ (arcCalc d none hasIJK tcp).2 ≠ ArcTag.validArc)
    ∧ lineSegs idx s l
        = [{ line := idx + 1
             start := s.current_pos
             seg_end := (lineScan s l).next
             dist := (arcCalc (dist3 s.current_pos (lineScan s l).next)
               ((lineScan s l).radius.map (fun q => (q : ℝ)))
               (lineScan s l).hasIJK (lineTcp s l)).1
             feed := ((lineUseFeed s l : ℚ) : ℝ)
             dist_xyz := 0
             rot_deg := 0
             is_tcp := false
             info := SegInfo.arcMove m
               (arcCalc (dist3 s.current_pos (lineScan s l).next)
                 ((lineScan s l).radius.map (fun q => (q : ℝ)))
                 (lineScan s l).hasIJK (lineTcp s l)).2 }]
    ∧ lineLogs idx s l
        = [⟨idx + 1, pyStrip l,
            LogTag.arcNote (arcCalc (dist3 s.current_pos (lineScan s l).next)
              ((lineScan s l).radius.map (fun q => (q : ℝ)))
              (lineScan s l).hasIJK (lineTcp s l)).2⟩] := by
  have hc1 : d ≤ 2 * |rv| →
      arcCalc d (some rv) hasIJK tcp
        = (|rv| * (if rv < 0 then 2 * Real.pi - 2 * Real.arcsin (d / (2 * |rv|))
            else 2 * Real.arcsin (d / (2 * |rv|))), ArcTag.validArc) := by
    intro h
    simp only [arcCalc]
    rw [if_pos h]
  refine ⟨hc1, ?_, ?_, ⟨?_, ?_⟩, ?_, ?_⟩
  · intro heq
    rw [hc1 (le_of_eq heq)]
    have h2 : (0 : ℝ) < 2 * |rv| := by rw [← heq]; linarith
    rw [heq, div_self (ne_of_gt h2), Real.arcsin_one]
    by_cases hrv : rv < 0
    · rw [if_pos hrv]
      congr 1
      ring
    · rw [if_neg hrv]
      congr 1
      ring
  · intro hlt
    simp only [arcCalc]
    rw [if_neg (not_le.mpr hlt)]
  · show (arcCalc d none hasIJK tcp).1 = d
    simp only [arcCalc]
    split <;> rfl
  · show (arcCalc d none hasIJK tcp).2 ≠ ArcTag.validArc
    simp only [arcCalc]
    split <;> simp
  · rw [lineSegs_arc idx s l m hcoord hm2 hmode, if_pos hchord]
  · rw [lineLogs_arc idx s l m hcoord hm2 hmode, if_pos hchord]

theorem arc_length_rule_witness :
    ((1e-6 : ℝ) < 10)
    ∧ arcCalc 10 (some 5) false false = ((|(5 : ℝ)| * Real.pi), ArcTag.validArc)
    ∧ arcCalc 10 (some 4) false false = (10, ArcTag.radiusError)
    ∧ (arcCalc 10 none false false).1 = 10
    ∧ (arcCalc 10 none false false).2 ≠ ArcTag.validArc
    ∧ (lineSegs 0 initState (String.toList "G02 X3 Y4 R5")).length = 1
    ∧ (lineLogs 0 initState (String.toList "G02 X3 Y4 R5")).length = 1 := by
  have hd : (1e-6 : ℝ) < 10 := by norm_num
  have hmode : lineMode initState (String.toList "G02 X3 Y4 R5") = Mode.G02 := by decide
  have hcoord : lineHasCoords initState (String.toList "G02 X3 Y4 R5") = true := by decide
  have hnext : (lineScan initState (String.toList "G02 X3 Y4 R5")).next
      = ⟨3, 4, 0, 0, 0, 0, 0, 0, 1⟩ := by decide
  have hchord : (1e-6 : ℝ) < dist3 initState.current_pos
      (lineScan initState (String.toList "G02 X3 Y4 R5")).next := by
    rw [hnext]
    show (1e-6 : ℝ) < dist3 homePos ⟨3, 4, 0, 0, 0, 0, 0, 0, 1⟩
    unfold dist3 homePos
    norm_num
    rw [show (25 : ℝ) = 5 ^ 2 by norm_num, Real.sqrt_sq (by norm_num : (0:ℝ) ≤ 5)]
    norm_num
  have main := arc_length_rule 10 5 false false 0 initState
    (String.toList "G02 X3 Y4 R5") Mode.G02 hd (Or.inl rfl) hmode hcoord hchord
  have main4 := arc_length_rule 10 4 false false 0 initState
    (String.toList "G02 X3 Y4 R5") Mode.G02 hd (Or.inl rfl) hmode hcoord hchord
  refine ⟨hd, main.2.1 (by rw [abs_of_pos] <;> norm_num),
    main4.2.2.1 (by rw [abs_of_pos] <;> norm_num),
    main.2.2.2.1.1, main.2.2.2.1.2, ?_, ?_⟩
  · rw [main.2.2.2.2.1]
    rfl
  · rw [main.2.2.2.2.2]
    rfl

/-! ## C10: totality of the float conversion and the analytic guards -/

theorem takeWhile_all_append {p : Char → Bool} {l1 : List Char}
    (h : ∀ c ∈ l1, p c = true) {x : Char} (hx : p x = false) (l2 : List Char) :
    (l1 ++ x :: l2).takeWhile p = l1 ∧ (l1 ++ x :: l2).dropWhile p = x :: l2 := by
  induction l1 with
  | nil =>
    rw [List.nil_append, List.takeWhile_cons, List.dropWhile_cons, hx]
    exact ⟨rfl, rfl⟩
  | cons c cs ih =>
    have hc : p c = true := h c (List.mem_cons_self c cs)
    have hrest : ∀ b ∈ cs, p b = true := fun b hb => h b (List.mem_cons_of_mem c hb)
    obtain ⟨ht, hd⟩ := ih hrest
    rw [List.cons_append, List.takeWhile_cons, List.dropWhile_cons, hc]
    constructor
    · show c :: (cs ++ x :: l2).takeWhile p = c :: cs
      rw [ht]
    · exact hd

theorem takeWhile_all {p : Char → Bool} {l : List Char} (h : ∀ c ∈ l, p c = true) :
    l.takeWhile p = l ∧ l.dropWhile p = [] := by
  induction l with
  | nil => exact ⟨rfl, rfl⟩
  | cons c cs ih =>
    have hc : p c = true := h c (List.mem_cons_self c cs)
    have hrest : ∀ b ∈ cs, p b = true := fun b hb => h b (List.mem_cons_of_mem c hb)
    obtain ⟨ht, hd⟩ := ih hrest
    rw [List.takeWhile_cons, List.dropWhile_cons, hc]
    constructor
    · show c :: cs.takeWhile p = c :: cs
      rw [ht]
    · exact hd

theorem digit_ne_dash {c : Char} (h : c.isDigit = true) : ¬c = '-' := by
  intro he
  subst he
  exact absurd h (by decide)

theorem digit_ne_plus {c : Char} (h : c.isDigit = true) : ¬c = '+' := by
  intro he
  subst he
  exact absurd h (by decide)

theorem numSign_fst_shape (cs : List Char) :
    (numSign cs).1 = [] ∨ (numSign cs).1 = ['-'] ∨ (numSign cs).1 = ['+'] := by
  cases cs with
  | nil => exact Or.inl rfl
  | cons c t =>
    by_cases h1 : c = '-'
    · subst h1
      refine Or.inr (Or.inl ?_)
      simp [numSign]
    · by_cases h2 : c = '+'
      · subst h2
        refine Or.inr (Or.inr ?_)
        simp [numSign]
      · refine Or.inl ?_
        simp [numSign, h1, h2]

/-- `numSign` splits off exactly a shape-conforming sign prefix when the
remainder starts with a digit or a dot. -/
theorem numSign_of_parts (sign rest : List Char)
    (hs : sign = [] ∨ sign = ['-'] ∨ sign = ['+'])
    (hrest : ∀ c, rest.head? = some c → (c.isDigit = true ∨ c = '.'))
    (hne : rest ≠ []) :
    numSign (sign ++ rest) = (sign, rest) := by
  rcases hs with rfl | rfl | rfl
  · cases rest with
    | nil => exact absurd rfl hne
    | cons c t =>
      have hc := hrest c rfl
      have h1 : ¬c = '-' := by
        rcases hc with h | h
        · exact digit_ne_dash h
        · subst h; decide
      have h2 : ¬c = '+' := by
        rcases hc with h | h
        · exact digit_ne_plus h
        · subst h; decide
      rw [List.nil_append]
      simp [numSign, h1, h2]
  · rw [List.cons_append, List.nil_append]
    simp [numSign]
  · rw [List.cons_append, List.nil_append]
    simp [numSign]

/-- `float()` accepts `sign ++ digits`. -/
theorem pyFloat_int_ok (sign ds : List Char)
    (hs : sign = [] ∨ sign = ['-'] ∨ sign = ['+'])
    (hds : ∀ c ∈ ds, Char.isDigit c = true) (hne : ds ≠ []) :
    (pyFloat (sign ++ ds)).isSome = true := by
  obtain ⟨ht, hd⟩ := takeWhile_all hds
  have hempty : ds.isEmpty = false := by
    cases ds with
    | nil => exact absurd rfl hne
    | cons d ds2 => rfl
  have hsplit : numSign (sign ++ ds) = (sign, ds) := by
    apply numSign_of_parts sign ds hs ?_ hne
    intro c hc
    cases ds with
    | nil => cases hc
    | cons d t =>
      injection hc with hc
      rw [← hc]
      exact Or.inl (hds d (List.mem_cons_self d t))
  unfold pyFloat
  rw [hsplit]
  simp only [ht, hd, hempty]
  rfl

/-- `float()` accepts `sign ++ digits ++ '.' ++ digits` with at least one
digit on a side of the dot. -/
theorem pyFloat_dec_ok (sign ds ds2 : List Char)
    (hs : sign = [] ∨ sign = ['-'] ∨ sign = ['+'])
    (hds : ∀ c ∈ ds, Char.isDigit c = true)
    (hds2 : ∀ c ∈ ds2, Char.isDigit c = true)
    (hne : (ds.isEmpty && ds2.isEmpty) = false) :
    (pyFloat (sign ++ (ds ++ '.' :: ds2))).isSome = true := by
  obtain ⟨ht, hd⟩ := takeWhile_all_append hds (by decide : Char.isDigit '.' = false) ds2
  obtain ⟨ht2, hd2⟩ := takeWhile_all hds2
  have hsplit : numSign (sign ++ (ds ++ '.' :: ds2)) = (sign, ds ++ '.' :: ds2) := by
    apply numSign_of_parts sign _ hs ?_ (by cases ds <;> simp)
    intro c hc
    cases ds with
    | nil =>
      rw [List.nil_append] at hc
      injection hc with hc
      subst hc
      exact Or.inr rfl
    | cons d t =>
      rw [List.cons_append] at hc
      injection hc with hc
      rw [← hc]
      exact Or.inl (hds d (List.mem_cons_self d t))
  unfold pyFloat
  rw [hsplit]
  simp only [ht, hd, ht2, hd2, List.isEmpty_nil, hne]
  rfl

/-- Every number string the tokenizer's regex can produce is accepted by
the (modelled) `float()` conversion: the `except ValueError` branch of the
token loop is unreachable for regex-matched tokens. -/
theorem matchNum_pyFloat_ok {cs num rest : List Char}
    (h : matchNum cs = some (num, rest)) : (pyFloat num).isSome = true := by
  unfold matchNum at h
  simp only [] at h
  split at h
  case _ r3 heq =>
    split at h
    · exact absurd h (by simp)
    · next hcond =>
      simp only [Option.some.injEq, Prod.mk.injEq] at h
      obtain ⟨h1, -⟩ := h
      rw [← h1]
      have hds : ∀ c ∈ (numSign cs).2.takeWhile Char.isDigit, Char.isDigit c = true :=
        fun c hc => List.mem_takeWhile_imp hc
      have hds2 : ∀ c ∈ r3.takeWhile Char.isDigit, Char.isDigit c = true :=
        fun c hc => List.mem_takeWhile_imp hc
      have hne : (((numSign cs).2.takeWhile Char.isDigit).isEmpty
          && (r3.takeWhile Char.isDigit).isEmpty) = false := by
        rw [Bool.eq_false_iff]
        exact hcond
      have := pyFloat_dec_ok (numSign cs).1 ((numSign cs).2.takeWhile Char.isDigit)
        (r3.takeWhile Char.isDigit) (numSign_fst_shape cs) hds hds2 hne
      simpa [List.append_assoc] using this
  case _ =>
    split at h
    · exact absurd h (by simp)
    · next hcond =>
      simp only [Option.some.injEq, Prod.mk.injEq] at h
      obtain ⟨h1, -⟩ := h
      rw [← h1]
      have hds : ∀ c ∈ (numSign cs).2.takeWhile Char.isDigit, Char.isDigit c = true :=
        fun c hc => List.mem_takeWhile_imp hc
      have hne : (numSign cs).2.takeWhile Char.isDigit ≠ [] := by
        intro h0
        apply hcond
        rw [h0]
        rfl
      exact pyFloat_int_ok (numSign cs).1 ((numSign cs).2.takeWhile Char.isDigit)
        (numSign_fst_shape cs) hds hne

theorem tokenizeAux_pyFloat_ok (fuel : ℕ) (cs : List Char) (c : Char) (num : List Char)
    (h : (c, num) ∈ tokenizeAux fuel cs) : (pyFloat num).isSome = true := by
  induction fuel generalizing cs with
  | zero => simp [tokenizeAux] at h
  | succ fuel ih =>
    cases cs with
    | nil => simp [tokenizeAux] at h
    | cons c2 rest =>
      unfold tokenizeAux at h
      by_cases hL : isTokenLetter c2 = true
      · rw [if_pos hL] at h
        cases hm : matchNum rest with
        | none =>
          rw [hm] at h
          exact ih rest h
        | some p =>
          obtain ⟨num2, rest2⟩ := p
          rw [hm] at h
          have h3 : (c, num) ∈ (c2.toUpper, num2) :: tokenizeAux fuel rest2 := h
          rcases List.mem_cons.mp h3 with heq | htail
          · have h4 : num = num2 := congrArg Prod.snd heq
            rw [h4]
            exact matchNum_pyFloat_ok hm
          · exact ih rest2 htail
      · rw [if_neg hL] at h
        exact ih rest h

/-- C10: total safety of `parse_and_calculate`'s numeric core — every
number string matched by the token regex parses as a float (the
`ValueError` branch is unreachable); the clamp bounds the `acos` argument
into `[-1, 1]`; under the arc guards `1e-6 < d ≤ 2|R|`, the divisor
`2|R|` is strictly positive and the `asin` argument lies in `[-1, 1]`;
and tool-axis normalization divides only by a nonzero norm. -/
theorem float_and_domain_guards (line : List Char) (c : Char) (num : List Char)
    (x d rv : ℝ) (v : ℝ × ℝ × ℝ)
    (hmem : (c, num) ∈ tokenize line)
    (hd : (1e-6 : ℝ) < d) (hr : d ≤ 2 * |rv|) (hnorm : 0 < norm3 v) :
    (pyFloat num).isSome = true
    ∧ (-1 ≤ clampVal x ∧ clampVal x ≤ 1)
    ∧ (0 < 2 * |rv| ∧ -1 ≤ d / (2 * |rv|) ∧ d / (2 * |rv|) ≤ 1)
    ∧ norm3 v ≠ 0 := by
  have hdpos : (0 : ℝ) < d := lt_trans (by norm_num) hd
  have h2pos : (0 : ℝ) < 2 * |rv| := lt_of_lt_of_le hdpos hr
  refine ⟨tokenizeAux_pyFloat_ok _ _ c num hmem, ⟨le_max_left _ _, ?_⟩,
    ⟨h2pos, ?_, (div_le_one h2pos).mpr hr⟩, ne_of_gt hnorm⟩
  · exact max_le (by norm_num) (min_le_left _ _)
  · have : (0 : ℝ) ≤ d / (2 * |rv|) := div_nonneg (le_of_lt hdpos) (le_of_lt h2pos)
    linarith

theorem float_and_domain_guards_witness :
    (('X', String.toList "10.5") ∈ tokenize (String.toList "X10.5 Y-2"))
    ∧ ((1e-6 : ℝ) < 10) ∧ ((10 : ℝ) ≤ 2 * |(5 : ℝ)|)
    ∧ (0 < norm3 (0, 0, 1))
    ∧ (pyFloat (String.toList "10.5")).isSome = true
    ∧ (-1 ≤ clampVal 7 ∧ clampVal 7 ≤ 1)
    ∧ (0 < 2 * |(5 : ℝ)| ∧ -1 ≤ 10 / (2 * |(5 : ℝ)|) ∧ 10 / (2 * |(5 : ℝ)|) ≤ 1)
    ∧ norm3 (0, 0, 1) ≠ 0 := by
  have hmem : ('X', String.toList "10.5") ∈ tokenize (String.toList "X10.5 Y-2") := by
    decide
  have hd : (1e-6 : ℝ) < 10 := by norm_num
  have hr : (10 : ℝ) ≤ 2 * |(5 : ℝ)| := by
    rw [abs_of_pos] <;> norm_num
  have hnorm : (0 : ℝ) < norm3 (0, 0, 1) := by
    unfold norm3
    rw [show ((0 : ℝ), (0 : ℝ), (1 : ℝ)).1 ^ 2 + ((0 : ℝ), (0 : ℝ), (1 : ℝ)).2.1 ^ 2
        + ((0 : ℝ), (0 : ℝ), (1 : ℝ)).2.2 ^ 2 = 1 by norm_num, Real.sqrt_one]
    norm_num
  have main := float_and_domain_guards (String.toList "X10.5 Y-2") 'X'
    (String.toList "10.5") 7 10 5 (0, 0, 1) hmem hd hr hnorm
  exact ⟨hmem, hd, hr, hnorm, main.1, main.2.1, main.2.2.1, main.2.2.2⟩

/-! ## C9: bin ranking and the BPT estimate -/

theorem insertCountDesc_perm (x : StatEntry α) (l : List (StatEntry α)) :
    List.Perm (insertCountDesc x l) (x :: l) := by
  induction l with
  | nil => exact List.Perm.refl _
  | cons y ys ih =>
    unfold insertCountDesc
    split
    · exact List.Perm.refl _
    · exact (ih.cons y).trans (List.Perm.swap x y ys)

theorem sortCountDesc_perm (l : List (StatEntry α)) : List.Perm (sortCountDesc l) l := by
  have h : ∀ (l2 acc : List (StatEntry α)),
      List.Perm (l2.foldl (fun acc x => insertCountDesc x acc) acc) (acc ++ l2) := by
    intro l2
    induction l2 with
    | nil => intro acc; simp
    | cons x xs ih =>
      intro acc
      exact (ih _).trans
        (((insertCountDesc_perm x acc).append_right xs).trans List.perm_middle.symm)
  simpa [sortCountDesc] using h l []

theorem mem_insertCountDesc {x e : StatEntry α} {l : List (StatEntry α)}
    (h : e ∈ insertCountDesc x l) : e = x ∨ e ∈ l := by
  have h2 := (insertCountDesc_perm x l).mem_iff.mp h
  simpa using h2

theorem insertCountDesc_pairwise (x : StatEntry α) (l : List (StatEntry α))
    (h : l.Pairwise (fun a b => b.count ≤ a.count)) :
    (insertCountDesc x l).Pairwise (fun a b => b.count ≤ a.count) := by
  induction l with
  | nil => simp [insertCountDesc]
  | cons y ys ih =>
    rw [List.pairwise_cons] at h
    obtain ⟨hy, hys⟩ := h
    unfold insertCountDesc
    split
    · next hlt =>
      rw [List.pairwise_cons]
      refine ⟨?_, ?_⟩
      · intro b hb
        rcases List.mem_cons.mp hb with rfl | hb2
        · exact le_of_lt hlt
        · exact le_trans (hy b hb2) (le_of_lt hlt)
      · rw [List.pairwise_cons]
        exact ⟨hy, hys⟩
    · next hge =>
      rw [List.pairwise_cons]
      refine ⟨?_, ih hys⟩
      intro b hb
      rcases mem_insertCountDesc hb with rfl | hb2
      · exact Nat.le_of_not_lt hge
      · exact hy b hb2

theorem sortCountDesc_pairwise (l : List (StatEntry α)) :
    (sortCountDesc l).Pairwise (fun a b => b.count ≤ a.count) := by
  have h : ∀ (l2 acc : List (StatEntry α)),
      acc.Pairwise (fun a b => b.count ≤ a.count) →
      (l2.foldl (fun acc x => insertCountDesc x acc) acc).Pairwise
        (fun a b => b.count ≤ a.count) := by
    intro l2
    induction l2 with
    | nil => intro acc hacc; simpa using hacc
    | cons x xs ih => intro acc hacc; exact ih _ (insertCountDesc_pairwise x acc hacc)
  exact h l [] (by simp)

/-- Stability of the insertion: an element with a fresh count value goes
after every already-placed element of the same count. -/
theorem insertCountDesc_filter (x : StatEntry α) (l : List (StatEntry α)) (n : ℕ)
    (h : l.Pairwise (fun a b => b.count ≤ a.count)) :
    (insertCountDesc x l).filter (fun e => e.count == n)
      = if x.count = n then l.filter (fun e => e.count == n) ++ [x]
        else l.filter (fun e => e.count == n) := by
  induction l with
  | nil =>
    unfold insertCountDesc
    by_cases hx : x.count = n
    · rw [if_pos hx]
      simp [List.filter_cons, hx]
    · rw [if_neg hx]
      simp [List.filter_cons, hx]
  | cons y ys ih =>
    rw [List.pairwise_cons] at h
    obtain ⟨hy, hys⟩ := h
    unfold insertCountDesc
    split
    · next hlt =>
      by_cases hx : x.count = n
      · have hnil : (y :: ys).filter (fun e => e.count == n) = [] := by
          rw [List.filter_eq_nil_iff]
          intro b hb
          have hble : b.count ≤ y.count := by
            rcases List.mem_cons.mp hb with rfl | hb2
            · exact le_refl _
            · exact hy b hb2
          have hbn : b.count < n := lt_of_le_of_lt hble (hx ▸ hlt)
          simp [Nat.ne_of_lt hbn]
        rw [if_pos hx, hnil, List.filter_cons_of_pos (by simp [hx]), hnil]
        rfl
      · rw [if_neg hx, List.filter_cons_of_neg (by simp [hx])]
    · next hge =>
      rw [List.filter_cons, List.filter_cons, ih hys]
      by_cases hyn : (y.count == n) = true
      · rw [if_pos hyn, if_pos hyn]
        by_cases hx : x.count = n
        · rw [if_pos hx, if_pos hx]
          simp
        · rw [if_neg hx, if_neg hx]
      · rw [if_neg hyn, if_neg hyn]

theorem sortCountDesc_filter (l : List (StatEntry α)) (n : ℕ) :
    (sortCountDesc l).filter (fun e => e.count == n)
      = l.filter (fun e => e.count == n) := by
  have h : ∀ (l2 acc : List (StatEntry α)),
      acc.Pairwise (fun a b => b.count ≤ a.count) →
      (l2.foldl (fun acc x => insertCountDesc x acc) acc).filter (fun e => e.count == n)
        = acc.filter (fun e => e.count == n) ++ l2.filter (fun e => e.count == n) := by
    intro l2
    induction l2 with
    | nil => intro acc hacc; simp
    | cons x xs ih =>
      intro acc hacc
      rw [List.foldl_cons, ih _ (insertCountDesc_pairwise x acc hacc),
        insertCountDesc_filter x acc n hacc, List.filter_cons]
      by_cases hx : (x.count == n) = true
      · have hx2 : x.count = n := by simpa using hx
        rw [if_pos hx, if_pos hx2]
        simp
      · have hx2 : ¬x.count = n := by simpa using hx
        rw [if_neg hx, if_neg hx2]
  simpa [sortCountDesc] using h l [] (by simp)

/-- Entries with count 0 never enter `stats_list`. -/
theorem preStats_count_ne_zero (logs : List (Seg α)) (intervals : List (α × Option α))
    (e : StatEntry α) (he : e ∈ preStats logs intervals) : e.count ≠ 0 := by
  unfold preStats at he
  rw [List.mem_filterMap] at he
  obtain ⟨p, hp, hpe⟩ := he
  by_cases h0 : intervalCount logs intervals p.1 = 0
  · rw [if_pos h0] at hpe
    cases hpe
  · rw [if_neg h0] at hpe
    injection hpe with hpe
    rw [← hpe]
    exact h0

/-- C9: in `calculate_metrics_and_stats`, zero-count bins are dropped, the
surviving bins are ranked by count descending with ties keeping input
(interval) order (filter-by-count stability), the headline lists are the
top 10 and top 3 of that ranking, and the BPT estimate for the single
highest-count bin runs from `(min_len/avg_feed)·60000` to
`(max_len/avg_feed)·60000` where `avg_feed` is the bin's summed feed over
its count and `max_len` of the unbounded last interval was replaced by
`1.5 × min_len` at construction. -/
theorem bpt_and_bin_ranking (logs : List (Seg α)) (intervals : List (α × Option α))
    (n i : ℕ) (s0 : α) (top : StatEntry α) (rest : List (StatEntry α))
    (hranked : rankedStats logs intervals = top :: rest)
    (havg : 0 < top.avg_feed) :
    (rankedStats logs intervals).Pairwise (fun a b => b.count ≤ a.count)
    ∧ (rankedStats logs intervals).filter (fun e => e.count == n)
        = (preStats logs intervals).filter (fun e => e.count == n)
    ∧ List.Forall (fun e => e.count ≠ 0) (rankedStats logs intervals)
    ∧ (pureMetrics logs intervals).bpt_info
        = some ⟨top.min_len / top.avg_feed * 60000, top.max_len / top.avg_feed * 60000,
            top.avg_feed⟩
    ∧ (pureMetrics logs intervals).top_10 = (rankedStats logs intervals).take 10
    ∧ (pureMetrics logs intervals).top_3 = (rankedStats logs intervals).take 3
    ∧ (mkStatEntry logs intervals i (s0, none)).max_len = s0 * (3 / 2)
    ∧ (mkStatEntry logs intervals i (s0, none)).avg_feed
        = (if 0 < intervalCount logs intervals i then
            intervalFeedSum logs intervals i / (intervalCount logs intervals i : α)
          else 1000) := by
  refine ⟨sortCountDesc_pairwise _, sortCountDesc_filter _ n, ?_, ?_, rfl, rfl, rfl, rfl⟩
  · rw [List.forall_iff_forall_mem]
    intro e he
    have hmem : e ∈ preStats logs intervals := by
      have hp := sortCountDesc_perm (preStats logs intervals)
      exact hp.mem_iff.mp he
    exact preStats_count_ne_zero logs intervals e hmem
  · show (match rankedStats logs intervals with
      | [] => none
      | top1 :: _ =>
        if 0 < top1.avg_feed then
          some (BptInfo.mk (top1.min_len / top1.avg_feed * 60000)
            (top1.max_len / top1.avg_feed * 60000) top1.avg_feed)
        else none) = _
    rw [hranked]
    simp only
    rw [if_pos havg]

/-- Data for the C9 witness: a single cutting segment of length 1 and
feed 100 against the two intervals `[0,1)` and `[1,∞)`; the distance lands
in the unbounded last interval. -/
def c9Logs : List (Seg ℚ) :=
  [{ line := 1, start := homePos, seg_end := homePos, dist := 1, feed := 100,
     dist_xyz := 0, rot_deg := 0, is_tcp := false, info := SegInfo.linearMove false }]

def c9Intervals : List (ℚ × Option ℚ) := [(0, some 1), (1, none)]

theorem bpt_and_bin_ranking_witness :
    rankedStats c9Logs c9Intervals = [mkStatEntry c9Logs c9Intervals 1 ((1 : ℚ), none)]
    ∧ (0 : ℚ) < (mkStatEntry c9Logs c9Intervals 1 ((1 : ℚ), none)).avg_feed
    ∧ (pureMetrics c9Logs c9Intervals).bpt_info
        = some ⟨(mkStatEntry c9Logs c9Intervals 1 ((1 : ℚ), none)).min_len
              / (mkStatEntry c9Logs c9Intervals 1 ((1 : ℚ), none)).avg_feed * 60000,
            (mkStatEntry c9Logs c9Intervals 1 ((1 : ℚ), none)).max_len
              / (mkStatEntry c9Logs c9Intervals 1 ((1 : ℚ), none)).avg_feed * 60000,
            (mkStatEntry c9Logs c9Intervals 1 ((1 : ℚ), none)).avg_feed⟩
    ∧ (rankedStats c9Logs c9Intervals).Pairwise (fun a b => b.count ≤ a.count)
    ∧ (mkStatEntry c9Logs c9Intervals 1 ((1 : ℚ), none)).max_len = 1 * (3 / 2) := by
  have hranked : rankedStats c9Logs c9Intervals
      = [mkStatEntry c9Logs c9Intervals 1 ((1 : ℚ), none)] := rfl
  have hsum : intervalFeedSum c9Logs c9Intervals 1 = 100 := by
    show List.sum [(100 : ℚ)] = 100
    simp
  have havg : (0 : ℚ) < (mkStatEntry c9Logs c9Intervals 1 ((1 : ℚ), none)).avg_feed := by
    show (0 : ℚ) < if 0 < intervalCount c9Logs c9Intervals 1 then
        intervalFeedSum c9Logs c9Intervals 1 / (intervalCount c9Logs c9Intervals 1 : ℚ)
      else 1000
    rw [if_pos (by decide), hsum, show intervalCount c9Logs c9Intervals 1 = 1 from rfl]
    norm_num
  have main := bpt_and_bin_ranking c9Logs c9Intervals 1 1 (1 : ℚ)
    (mkStatEntry c9Logs c9Intervals 1 ((1 : ℚ), none)) [] hranked havg
  exact ⟨hranked, havg, main.2.2.2.1, main.1, main.2.2.2.2.2.2.1⟩

/-! ## C6: cancellation returns a bare `none` -/

theorem runEngine_cancel (cb : ℕ → Bool) (ls : List (List Char)) (k i0 : ℕ)
    (s : EngineState) (hk : k < ls.length) (hmod : (i0 + k) % 2000 = 0)
    (hcb : cb (i0 + k) = true) : runEngine cb i0 s ls = none := by
  induction ls generalizing k i0 s with
  | nil => simp at hk
  | cons l ls ih =>
    unfold runEngine
    by_cases h0 : (decide (i0 % 2000 = 0) && cb i0) = true
    · rw [if_pos h0]
    · rw [if_neg h0]
      cases k with
      | zero =>
        exfalso
        apply h0
        simp only [Nat.add_zero] at hmod hcb
        simp [hmod, hcb]
      | succ k2 =>
        apply ih k2 (i0 + 1)
        · exact Nat.lt_of_succ_lt_succ (by simpa using hk)
        · rw [show i0 + 1 + k2 = i0 + (k2 + 1) by omega]
          exact hmod
        · rw [show i0 + 1 + k2 = i0 + (k2 + 1) by omega]
          exact hcb

theorem metrics_cancel (cb : ℕ → Bool) (logs : List (Seg α))
    (intervals : List (α × Option α)) (j : ℕ) (hj : j < logs.length)
    (hmod : j % 10000 = 0) (hcb : cb j = true) :
    calculate_metrics_and_stats cb logs intervals = none := by
  unfold calculate_metrics_and_stats
  rw [if_neg, if_pos]
  · rw [List.any_eq_true]
    exact ⟨j, List.mem_range.mpr hj, by simp [hmod, hcb]⟩
  · intro h
    rw [List.isEmpty_iff] at h
    subst h
    simp at hj

/-- C6: if the progress callback answers `true` at a consulted index, the
parsing stage returns `none` — no record at all — and the statistics stage
returns `none` — no statistics fields; neither stage ever hands back a
partially populated result. -/
theorem cancellation_no_partial_result (cb cb2 : ℕ → Bool) (content : List Char)
    (i : ℕ) (logs : List (Seg α)) (intervals : List (α × Option α)) (j : ℕ)
    (hi : i < (splitLines (pyStrip (stripComments content))).length)
    (himod : i % 2000 = 0) (hicb : cb i = true)
    (hj : j < logs.length) (hjmod : j % 10000 = 0) (hjcb : cb2 j = true) :
    parse_and_calculate cb content = none
    ∧ calculate_metrics_and_stats cb2 logs intervals = none := by
  constructor
  · unfold parse_and_calculate
    rw [runEngine_cancel cb _ i 0 initState hi (by simpa using himod) (by simpa using hicb)]
    rfl
  · exact metrics_cancel cb2 logs intervals j hj hjmod hjcb

theorem cancellation_witness :
    (0 < (splitLines (pyStrip (stripComments (String.toList "G00 X1")))).length)
    ∧ parse_and_calculate (fun _ => true) (String.toList "G00 X1") = none
    ∧ calculate_metrics_and_stats (fun _ => true)
        [({ line := 1, start := homePos, seg_end := homePos, dist := 1, feed := 100,
            dist_xyz := 0, rot_deg := 0, is_tcp := false,
            info := SegInfo.linearMove false } : Seg ℚ)] [] = none := by
  have h := cancellation_no_partial_result (fun _ => true) (fun _ => true)
    (String.toList "G00 X1") 0
    [({ line := 1, start := homePos, seg_end := homePos, dist := 1, feed := 100,
        dist_xyz := 0, rot_deg := 0, is_tcp := false,
        info := SegInfo.linearMove false } : Seg ℚ)] ([] : List (ℚ × Option ℚ)) 0
    (by decide) rfl rfl (by decide) rfl rfl
  exact ⟨by decide, h.1, h.2⟩

/-! ## C7: the returned record versus the fields the frontend reads -/

/-- C7 (code bug): none of the ten keys the display/export collaborators
read out of the engine's record — `matrix`, `lines`, `dists`, `modes`,
`feeds`, `dists_xyz`, `rots_deg`, `is_tcp`, `g01_dist`, `time` — occurs
among the keys of the dict literal `parse_and_calculate` actually returns
(`starts, ends, skipped, axes, g00_dist, detailed_logs, calc_mode`), so
`update_results` / `refresh_detail_view` / `export_csv` would fail with a
`KeyError` on any successfully analysed file. -/
theorem result_record_missing_ui_fields :
    uiReadKeys.filter (fun k => recordKeys.contains k) = []
    ∧ uiReadKeys.length = 10 ∧ recordKeys.length = 7 := by
  refine ⟨?_, rfl, rfl⟩
  rfl

/-- C8 counterexample: for a file with only X and Y moves the claim says
the detected axes are exactly {X, Y}, but the engine reports
`sorted(active_axes ∪ {X,Y,Z})` = [X, Y, Z]: Z is included although it was
never explicitly set (A, B, C are indeed excluded). -/
theorem detected_axes_counterexample :
    final_axes (runPure 0 initState [String.toList "G01 X10 Y5 F100"])
      = [Axis.X, Axis.Y, Axis.Z]
    ∧ (Axis.Z ∈ explicitAxes [String.toList "G01 X10 Y5 F100"]) = False := by
  constructor
  · show final_axes (stepLine 0 initState (String.toList "G01 X10 Y5 F100"))
      = [Axis.X, Axis.Y, Axis.Z]
    unfold final_axes
    rw [stepLine_axes]
    decide
  · simp only [eq_iff_iff, iff_false]
    decide

end CAM
